import Mathlib

/-!
# Verification of the DocuQuery RAG core (backend/utils.py, backend/main.py)

Shallow embedding of the retrieval-augmented question-answering pipeline:
text normalization (`clean_text`), sentence-respecting chunking
(`chunk_context`), embedding generation (`generate_embeddings`), top-k
retrieval (`retrieve_relevant_chunks`), answer generation with retry
(`generate_fluent_answer`) and deterministic answer post-processing
(`post_process_answer`), together with the per-document embedding cache
maintained by the FastAPI handlers (`upload_pdf`, `ask_question`,
`delete_document`).

Python strings are modelled as `List Char` (a Python `str` is a sequence of
code points).  External model calls (the SentenceTransformer embedder, the
T5 generator, `torch.topk`) are modelled as explicit function parameters or
small executable definitions of their documented behaviour; everything that
is plain Python string and list logic is translated statement by statement
from the source.
-/

namespace DocuQuery

/-- Python strings as sequences of code points. -/
abbrev Str := List Char

/-- Coerce a Lean string literal to the `List Char` model. -/
def str (s : String) : Str := s.data

/-- The whitespace test used by Python `str.split()` / `str.strip()` and by
the regex class `\s`, restricted to the ASCII whitespace characters
(space, tab, newline, carriage return, vertical tab, form feed). -/
def pyIsSpace (c : Char) : Bool :=
  c == ' ' || c == '\t' || c == '\n' || c == '\r' || c == '\x0b' || c == '\x0c'

/-- Worker for `pySplitWs`: scans the string, accumulating the current word
(in reverse) in `acc`; whitespace runs end words, empty words are dropped.
This is exactly Python `str.split()` with no argument. -/
def pySplitWsAux : Str → Str → List Str
  | [], acc => if acc.isEmpty then [] else [acc.reverse]
  | c :: cs, acc =>
    if pyIsSpace c then
      if acc.isEmpty then pySplitWsAux cs []
      else acc.reverse :: pySplitWsAux cs []
    else pySplitWsAux cs (c :: acc)

/-- Python `s.split()`: split on runs of whitespace, discarding empties. -/
def pySplitWs (l : Str) : List Str := pySplitWsAux l []

/-- The number of words of a string in the sense of `len(s.split())`. -/
def wordCount (l : Str) : Nat := (pySplitWs l).length

/-- Python `' '.join(l)`. -/
def joinSpace : List Str → Str
  | [] => []
  | [s] => s
  | s :: rest => s ++ ' ' :: joinSpace rest

/-- Python `s.strip()`: drop leading and trailing whitespace. -/
def pyStrip (l : Str) : Str :=
  ((l.dropWhile pyIsSpace).reverse.dropWhile pyIsSpace).reverse

/-- Does `acc` (the current segment, reversed) end in a sentence
terminator?  This realizes the regex lookbehind `(?<=[.!?])`: the character
immediately before the scan position is the head of the reversed segment. -/
def headIsSentencePunct : Str → Bool
  | p :: _ => p == '.' || p == '!' || p == '?'
  | [] => false

/-- Worker for `splitSentences`, implementing
`re.split(r'(?<=[.!?])\s+', context)`: a maximal whitespace run whose
preceding character is `.`, `!` or `?` separates two segments.  `fuel`
bounds the recursion; every step consumes at least one character, and the
function is only ever started with `fuel = length of the input`, so the
fuel-exhausted fallback (which returns the remainder as one segment) is
never reached from `splitSentences`. -/
def splitSentGo : Nat → Str → Str → List Str
  | _, [], acc => [acc.reverse]
  | 0, rest, acc => [acc.reverse ++ rest]
  | fuel + 1, c :: cs, acc =>
    if pyIsSpace c && headIsSentencePunct acc then
      acc.reverse :: splitSentGo fuel (cs.dropWhile pyIsSpace) []
    else
      splitSentGo fuel cs (c :: acc)

/-- `re.split(r'(?<=[.!?])\s+', context)` from `chunk_context`
(src/backend/utils.py line 128). -/
def splitSentences (l : Str) : List Str := splitSentGo l.length l []

/-- The sentence-accumulation loop of `chunk_context`
(src/backend/utils.py lines 129-147).  `cur` is `current_chunk` (the list
of sentences of the chunk under construction, in order), `curLen` is
`current_length`.  A chunk is emitted as `' '.join(current_chunk)` when
adding the next sentence would push the running word count over
`maxW = max_chunk_size`, and the pending chunk is emitted after the loop
when nonempty. -/
def chunkAuxGo (maxW : Nat) : List Str → List Str → Nat → List Str
  | [], cur, _ => if cur.isEmpty then [] else [joinSpace cur]
  | s :: rest, cur, curLen =>
    let sl := wordCount s
    if curLen + sl > maxW then
      if cur.isEmpty then chunkAuxGo maxW rest [s] sl
      else joinSpace cur :: chunkAuxGo maxW rest [s] sl
    else
      chunkAuxGo maxW rest (cur ++ [s]) (curLen + sl)

/-- `chunk_context(context, max_chunk_size=512)` from
src/backend/utils.py lines 124-147. -/
def chunk_context (context : Str) (max_chunk_size : Nat := 512) : List Str :=
  chunkAuxGo max_chunk_size (splitSentences context) [] 0

/-! ## Answer post-processing (`post_process_answer`, utils.py lines 186-227)

Each `re.sub` of the pipeline is realized as an executable scanner with the
exact matching discipline of the Python pattern (leftmost match, greedy
quantifiers, scanning resuming after each match).  The `fuel` argument of
the scanners is always started at the length of the input; every iteration
consumes at least one character, so the fuel-exhausted fallbacks are never
reached. -/

/-- The sentence-punctuation character class `[.,!?]`. -/
def isPunct4 (c : Char) : Bool := c == '.' || c == ',' || c == '!' || c == '?'

/-- Matcher for the tail `\s*\d+` of the pattern `ID:?\s*\d+`: a greedy
whitespace run followed by at least one digit; returns the remainder after
the digits.  (No backtracking is needed: no character is both whitespace
and a digit.) -/
def matchWsDigits (s : Str) : Option Str :=
  let r := s.dropWhile pyIsSpace
  match r with
  | c :: _ => if c.isDigit then some (r.dropWhile Char.isDigit) else none
  | [] => none

/-- Matcher for `ID:?\s*\d+` at the current position.  The optional `:` is
tried first (greedy), falling back to the colon-free alternative exactly as
the regex engine backtracks. -/
def matchIdNum : Str → Option Str
  | 'I' :: 'D' :: rest =>
    (match rest with
     | ':' :: r => (matchWsDigits r).orElse (fun _ => matchWsDigits rest)
     | _ => matchWsDigits rest)
  | _ => none

/-- `re.sub(r'ID:?\s*\d+', '', answer)` (utils.py line 192). -/
def subIdNumGo : Nat → Str → Str
  | _, [] => []
  | 0, l => l
  | fuel + 1, c :: cs =>
    match matchIdNum (c :: cs) with
    | some rest => subIdNumGo fuel rest
    | none => c :: subIdNumGo fuel cs

def subIdNum (l : Str) : Str := subIdNumGo l.length l

/-- Matcher for `Objective:.*`: the literal label followed by the rest of
the line (`.` does not match a newline); returns the remainder (from the
first newline on, if any). -/
def matchObjective : Str → Option Str
  | 'O' :: 'b' :: 'j' :: 'e' :: 'c' :: 't' :: 'i' :: 'v' :: 'e' :: ':' :: rest =>
    some (rest.dropWhile (fun c => !(c == '\n')))
  | _ => none

/-- `re.sub(r'Objective:.*', '', answer)` (utils.py line 193). -/
def subObjectiveGo : Nat → Str → Str
  | _, [] => []
  | 0, l => l
  | fuel + 1, c :: cs =>
    match matchObjective (c :: cs) with
    | some rest => subObjectiveGo fuel rest
    | none => c :: subObjectiveGo fuel cs

def subObjective (l : Str) : Str := subObjectiveGo l.length l

/-- `re.sub(r'^\s*[-•]\s*', '', answer)` (utils.py line 194): without
`re.MULTILINE` the anchor `^` only matches at the start, so at most one
leading list marker is removed; when no `-`/`•` marker is present the
pattern does not match at all and the string (including its leading
whitespace) is unchanged. -/
def subLeadingMarker (l : Str) : Str :=
  match l.dropWhile pyIsSpace with
  | c :: cs => if c == '-' || c == '•' then cs.dropWhile pyIsSpace else l
  | [] => l

/-- The incomplete-sentence dropping block (utils.py lines 200-204):
`answer.split('.')`, keep (stripped) pieces of more than 2 words, re-join
with `'. '` and a trailing `'.'`; the block is skipped when the string has
no `'.'` or when no piece survives. -/
def dropFragments (a : Str) : Str :=
  if a.contains '.' then
    let sentences := a.splitOn '.'
    let complete := (sentences.filter
      (fun s => decide (2 < wordCount (pyStrip s)))).map pyStrip
    if complete.isEmpty then a
    else List.intercalate (str ". ") complete ++ ['.']
  else a

/-- `answer[0].upper() + answer[1:]` when the string starts with an
alphabetic character (utils.py lines 207-208; modelled with the ASCII
letter test). -/
def capFirst (a : Str) : Str :=
  match a with
  | c :: cs => if c.isAlpha then c.toUpper :: cs else a
  | [] => a

/-- Append `'.'` unless the string already ends with `.`, `!` or `?`
(utils.py lines 211-212; `endswith` on the empty string is false, so an
empty answer becomes `"."`). -/
def ensureEnd (a : Str) : Str :=
  match a.getLast? with
  | some c => if c == '.' || c == '!' || c == '?' then a else a ++ ['.']
  | none => a ++ ['.']

/-- `re.sub(r'\s+([.,!?])', r'\1', answer)` (utils.py line 215): a greedy
whitespace run immediately followed by punctuation is replaced by the
punctuation alone. -/
def fixSpacePunctGo : Nat → Str → Str
  | _, [] => []
  | 0, l => l
  | fuel + 1, c :: cs =>
    if pyIsSpace c then
      match cs.dropWhile pyIsSpace with
      | p :: ps =>
        if isPunct4 p then p :: fixSpacePunctGo fuel ps
        else c :: fixSpacePunctGo fuel cs
      | [] => c :: fixSpacePunctGo fuel cs
    else c :: fixSpacePunctGo fuel cs

def fixSpacePunct (l : Str) : Str := fixSpacePunctGo l.length l

/-- Matcher for `([A-Z][a-z]+)\s*([A-Z][a-z]+)`: two capitalized words
(one uppercase letter, one or more lowercase) with optional whitespace in
between; returns both words and the remainder after the second word. -/
def matchCapPair (l : Str) : Option (Str × Str × Str) :=
  match l with
  | c :: cs =>
    if c.isUpper then
      let low1 := cs.takeWhile Char.isLower
      if low1.isEmpty then none
      else
        match (cs.dropWhile Char.isLower).dropWhile pyIsSpace with
        | d :: ds =>
          if d.isUpper then
            let low2 := ds.takeWhile Char.isLower
            if low2.isEmpty then none
            else some (c :: low1, d :: low2, ds.dropWhile Char.isLower)
          else none
        | [] => none
    else none
  | [] => none

/-- `re.sub(r'([A-Z][a-z]+)\s*([A-Z][a-z]+)', r'\1 \2', answer)`
(utils.py line 218): scanning resumes after the second word of each
match. -/
def capSpacingGo : Nat → Str → Str
  | _, [] => []
  | 0, l => l
  | fuel + 1, c :: cs =>
    match matchCapPair (c :: cs) with
    | some (w1, w2, rest) => w1 ++ ' ' :: w2 ++ capSpacingGo fuel rest
    | none => c :: capSpacingGo fuel cs

def capSpacing (l : Str) : Str := capSpacingGo l.length l

/-- The regex word-character class `\w` (ASCII portion). -/
def isWordChar (c : Char) : Bool := c.isAlphanum || c == '_'

/-- Case-insensitive character comparison (ASCII case folding, as
`re.IGNORECASE` behaves on these ASCII-only patterns). -/
def lcEq (c d : Char) : Bool := c.toLower == d.toLower

/-- Case-insensitive literal matcher; returns the remainder on success. -/
def matchLit : Str → Str → Option Str
  | [], l => some l
  | _ :: _, [] => none
  | p :: ps, c :: cs => if lcEq p c then matchLit ps cs else none

/-- Matcher for `(ID|Submitted by|Name|Roll|Number):\s*` (the alternation
is tried left to right), followed by a greedy whitespace run. -/
def matchLabel (l : Str) : Option Str :=
  (((((matchLit (str "ID:") l).orElse
      (fun _ => matchLit (str "Submitted by:") l)).orElse
      (fun _ => matchLit (str "Name:") l)).orElse
      (fun _ => matchLit (str "Roll:") l)).orElse
      (fun _ => matchLit (str "Number:") l)).map
    (fun r => r.dropWhile pyIsSpace)

/-- `re.sub(r'\b(ID|Submitted by|Name|Roll|Number):\s*', '', answer,
flags=re.IGNORECASE)` (utils.py line 221).  The boolean argument tracks
whether the previous character is a word character, realizing the `\b`
anchor (all alternatives start with a letter). -/
def stripLabelsGo : Nat → Bool → Str → Str
  | _, _, [] => []
  | 0, _, l => l
  | fuel + 1, prevWord, c :: cs =>
    if !prevWord && isWordChar c then
      match matchLabel (c :: cs) with
      | some rest => stripLabelsGo fuel false rest
      | none => c :: stripLabelsGo fuel (isWordChar c) cs
    else c :: stripLabelsGo fuel (isWordChar c) cs

def stripLabels (l : Str) : Str := stripLabelsGo l.length false l

/-- `post_process_answer(answer)` from src/backend/utils.py lines 186-227:
the happy-path pipeline (no step of which can raise on a string input in
this model; the exception behaviour of the `try`/`except` block is modelled
by `post_process_answer_try` below). -/
def post_process_answer (answer : Str) : Str :=
  let a1 := subIdNum answer
  let a2 := subObjective a1
  let a3 := subLeadingMarker a2
  let a4 := joinSpace (pySplitWs a3)
  let a5 := dropFragments a4
  let a6 := capFirst a5
  let a7 := ensureEnd a6
  let a8 := fixSpacePunct a7
  let a9 := capSpacing a8
  let a10 := stripLabels a9
  pyStrip a10

/-- The ten successive assignments to the local variable `answer` inside
the `try` block of `post_process_answer`, in source order (the final
`answer.strip()` of the `return` is applied only when the whole block
completes). -/
def ppSteps : List (Str → Str) :=
  [subIdNum, subObjective, subLeadingMarker,
   fun a => joinSpace (pySplitWs a),
   dropFragments, capFirst, ensureEnd, fixSpacePunct, capSpacing,
   stripLabels]

/-- Executes the steps of the `try` block; `failAt = some k` means an
exception is raised while executing step `k` (so the local `answer` still
holds the value produced by the first `k` steps), and the `except` handler
(utils.py lines 225-227) returns that current value of `answer`.
`failAt = none` (or a `k` past the last step) means no exception: the full
pipeline runs and the stripped result is returned. -/
def ppTryGo : List (Str → Str) → Option Nat → Str → Str
  | [], _, a => pyStrip a
  | f :: fs, failAt, a =>
    match failAt with
    | some 0 => a
    | some (k + 1) => ppTryGo fs (some k) (f a)
    | none => ppTryGo fs none (f a)

/-- `post_process_answer` with the `try`/`except` of utils.py lines
190-227 made explicit: `failAt` says at which pipeline step (if any) an
exception is raised. -/
def post_process_answer_try (failAt : Option Nat) (answer : Str) : Str :=
  ppTryGo ppSteps failAt answer

/-! ## Answer generation (`generate_fluent_answer`, utils.py lines 229-291)

The tokenizer/T5 composite (encode, `t5_model.generate`, decode) is an
external model; it is abstracted as a function `model : Str → Option Str`
from the constructed prompt to the decoded raw answer, `none` standing for
a generation-time exception (caught by the `except` at lines 289-291).
The source recursion at line 284 has no depth bound, so it is embedded
with an explicit `fuel` counter: a result of `none` means the recursion
did not terminate within `fuel` generation attempts.  The second
component of the result counts the actual invocations of the generation
model. -/

def apos : Char := '\''

/-- The fixed no-relevant-chunks apology string (utils.py line 238). -/
def noChunksApology : Str :=
  str "I" ++ [apos] ++ str "m sorry, but I couldn" ++ [apos] ++
    str "t find relevant information to answer your question."

/-- The fixed generation-failure apology string (utils.py line 291). -/
def genFailApology : Str :=
  str "I apologize, but I couldn" ++ [apos] ++
    str "t generate an accurate answer to that question."

/-- The prompt constructed at utils.py lines 244-249. -/
def promptOf (question combined_context : Str) : Str :=
  str "Answer the following question based on the given context. Provide a clear and concise answer. Question: "
    ++ question ++ str " Context: " ++ combined_context

/-- `generate_fluent_answer(question, relevant_chunks)` from utils.py
lines 229-291, with the external generator abstracted as `model` and the
unbounded retry recursion bounded by `fuel`.  Returns the answer (`none` =
the retry recursion exceeded `fuel` attempts, i.e. did not terminate) and
the number of generation-model invocations. -/
def generate_fluent_answer (model : Str → Option Str) (fuel : Nat)
    (question : Str) (relevant_chunks : List Str) : Option Str × Nat :=
  if relevant_chunks.isEmpty then (some noChunksApology, 0)
  else
    match fuel with
    | 0 => (none, 0)
    | fuel + 1 =>
      let combined_context := joinSpace relevant_chunks
      let input_text := promptOf question combined_context
      match model input_text with
      | none => (some genFailApology, 1)
      | some raw =>
        let answer := post_process_answer raw
        if wordCount answer < 5 then
          let r := generate_fluent_answer model fuel question relevant_chunks
          (r.1, r.2 + 1)
        else (some answer, 1)

/-! ## Text normalization (`clean_text`, utils.py lines 89-122)

`unicodedata.normalize('NFKD', text)` performs Unicode *compatibility
decomposition* (no recombination).  It is modelled by a per-character
decomposition table restricted to the code points this development
exercises (all other characters are treated as normalization-inert; none
of the table entries needs canonical reordering). -/

/-- Full NFKD decomposition of a character, for the code points used here:
the ligature `ﬁ` (U+FB01) has the compatibility decomposition `fi`, and
`é` (U+00E9) has the canonical decomposition `e` + combining acute
(U+0301); other characters are their own decomposition. -/
def nfkdChar (c : Char) : Str :=
  if c == 'ﬁ' then str "fi"
  else if c == 'é' then ['e', '́']
  else [c]

/-- `unicodedata.normalize('NFKD', text)` (utils.py line 95). -/
def nfkdNormalize (l : Str) : Str := (l.map nfkdChar).flatten

/-- The test `unicodedata.category(c)[0] == 'C'` (utils.py line 98),
modelled for the code points this development manipulates: the full `Cc`
range (U+0000-U+001F, U+007F-U+009F) plus the common `Cf` code points
(soft hyphen, zero-width characters, BOM); other characters are not of
category C. -/
def isCatC (c : Char) : Bool :=
  decide (c.toNat < 0x20) || c.toNat == 0x7f ||
  decide (0x80 ≤ c.toNat ∧ c.toNat ≤ 0x9f) ||
  c.toNat == 0xad || decide (0x200b ≤ c.toNat ∧ c.toNat ≤ 0x200f) ||
  c.toNat == 0xfeff

/-- `re.sub(r'([.,!?])([.,!?])+', r'\1', text)` (utils.py line 104): a
punctuation character followed by a greedy run of further punctuation is
replaced by its first character; scanning resumes after the run. -/
def subPunctRunGo : Nat → Str → Str
  | _, [] => []
  | 0, l => l
  | fuel + 1, c :: cs =>
    if isPunct4 c then
      match cs with
      | d :: _ =>
        if isPunct4 d then c :: subPunctRunGo fuel (cs.dropWhile isPunct4)
        else c :: subPunctRunGo fuel cs
      | [] => [c]
    else c :: subPunctRunGo fuel cs

def subPunctRun (l : Str) : Str := subPunctRunGo l.length l

/-- The dash variants `[‐‑‒–—―]` normalized to `-` (utils.py line 107). -/
def dashToAscii (c : Char) : Char :=
  if c == '‐' || c == '‑' || c == '‒' || c == '–' || c == '—' || c == '―'
  then '-' else c

def subDashes (l : Str) : Str := l.map dashToAscii

/-- The curly quotes U+201C/U+201D normalized to `"` (utils.py line 108). -/
def quoteToAscii (c : Char) : Char :=
  if c == '“' || c == '”' then '"' else c

def subQuotes (l : Str) : Str := l.map quoteToAscii

/-- `re.sub(r'([.,!?])\1+', r'\1', text)` (utils.py line 111): a greedy
run of one repeated punctuation character collapses to one copy. -/
def subPunctRepeatGo : Nat → Str → Str
  | _, [] => []
  | 0, l => l
  | fuel + 1, c :: cs =>
    if isPunct4 c then
      match cs with
      | d :: _ =>
        if d == c then c :: subPunctRepeatGo fuel (cs.dropWhile (fun e => e == c))
        else c :: subPunctRepeatGo fuel cs
      | [] => [c]
    else c :: subPunctRepeatGo fuel cs

def subPunctRepeat (l : Str) : Str := subPunctRepeatGo l.length l

/-- `re.sub(r'([.,!?])([^\s])', r'\1 \2', text)` (utils.py line 114): a
space is inserted between punctuation and an immediately following
non-whitespace character; the match consumes both characters. -/
def subPunctSpaceGo : Nat → Str → Str
  | _, [] => []
  | 0, l => l
  | fuel + 1, c :: cs =>
    if isPunct4 c then
      match cs with
      | d :: ds =>
        if pyIsSpace d then c :: subPunctSpaceGo fuel cs
        else c :: ' ' :: d :: subPunctSpaceGo fuel ds
      | [] => [c]
    else c :: subPunctSpaceGo fuel cs

def subPunctSpace (l : Str) : Str := subPunctSpaceGo l.length l

/-- The steps of `clean_text` after the Unicode normalization of its first
statement: strip category-C characters, collapse whitespace, collapse
mixed punctuation runs, normalize dashes and quotes, collapse repeated
punctuation, space after punctuation, strip (utils.py lines 98-118). -/
def cleanTextAfterNormalize (t1 : Str) : Str :=
  let t2 := t1.filter (fun c => !(isCatC c))
  let t3 := joinSpace (pySplitWs t2)
  let t4 := subPunctRun t3
  let t5 := subDashes t4
  let t6 := subQuotes t5
  let t7 := subPunctRepeat t6
  let t8 := subPunctSpace t7
  pyStrip t8

/-- `clean_text(text)` from src/backend/utils.py lines 89-122 (the
`except` fallback at line 122 is unreachable for string inputs in this
model: every step is a total string transformation). -/
def clean_text (text : Str) : Str :=
  let t1 := nfkdNormalize text
  let t2 := t1.filter (fun c => !(isCatC c))
  let t3 := joinSpace (pySplitWs t2)
  let t4 := subPunctRun t3
  let t5 := subDashes t4
  let t6 := subQuotes t5
  let t7 := subPunctRepeat t6
  let t8 := subPunctSpace t7
  pyStrip t8

/-- Modelled from the spec: "Unicode canonical decomposition-then-recombination
normalization" — i.e. NFC — as the claimed first step of the normalizer.
Canonical decomposition of a character (the ligature `ﬁ` has no canonical
decomposition and stays intact; `é` decomposes to `e` + U+0301). -/
def canonDecompChar (c : Char) : Str :=
  if c == 'é' then ['e', '́'] else [c]

/-- Modelled from the spec: canonical recombination — the primary
composite `e` + U+0301 recombines to `é`. -/
def canonCompose : Str → Str
  | [] => []
  | 'e' :: c :: rest =>
    if c == '́' then 'é' :: canonCompose rest
    else 'e' :: canonCompose (c :: rest)
  | c :: rest => c :: canonCompose rest

/-- Modelled from the spec: NFC normalization (canonical decomposition
followed by canonical recombination). -/
def nfcNormalize (l : Str) : Str := canonCompose ((l.map canonDecompChar).flatten)

/-- Modelled from the spec: `clean_text` as the spec describes it, with
NFC as the first step and the remaining steps as in the source. -/
def clean_text_nfc_spec (text : Str) : Str :=
  cleanTextAfterNormalize (nfcNormalize text)

/-! ## Embedding cache and the FastAPI handlers (src/backend/main.py)

The SentenceTransformer embedder is abstracted as `embed : Str → Vec`;
`embedding_model.encode(chunks, ...)` returns one vector per input chunk,
in input order (the library contract stated in §4.3 of the model's
documentation), hence `generate_embeddings` is a `map`.  The module-level
dict `document_embeddings` is the cache, modelled as a function from
document ids.  The third component returned by `ask_question_cache`
counts the invocations of `generate_embeddings` performed by the call. -/

abbrev Vec := List ℚ

/-- `generate_embeddings(chunks)` from utils.py lines 149-160. -/
def generate_embeddings (embed : Str → Vec) (chunks : List Str) : List Vec :=
  chunks.map embed

/-- One entry of the `document_embeddings` dict of main.py line 79:
`{"chunks": chunks, "embeddings": embeddings}`. -/
structure CacheEntry where
  chunks : List Str
  embeddings : List Vec

abbrev Cache := Nat → Option CacheEntry

def emptyCache : Cache := fun _ => none

/-- The embedding-cache portion of `ask_question` (main.py lines
196-211): on a cache miss the document content is chunked (rejecting the
question if chunking yields no chunks), embedded and stored; then the
stored pair is read back and returned.  Returns the (chunks, embeddings)
pair, the resulting cache, and the number of `generate_embeddings`
invocations. -/
def ask_question_cache (embed : Str → Vec) (cache : Cache) (docId : Nat)
    (content : Str) : Except Str ((List Str × List Vec) × Cache × Nat) :=
  match cache docId with
  | some entry => .ok ((entry.chunks, entry.embeddings), cache, 0)
  | none =>
    let chunks := chunk_context content
    if chunks.isEmpty then
      .error (str "No context available to process the question.")
    else
      let embeddings := generate_embeddings embed chunks
      .ok ((chunks, embeddings),
        fun i => if i = docId then some ⟨chunks, embeddings⟩ else cache i, 1)

/-- The operations of the handlers that touch `document_embeddings`. -/
inductive CacheOp where
  | upload (id : Nat) (content : Str)
  | ask (id : Nat) (content : Str)
  | delete (id : Nat)

/-- The effect of one handler call on the cache: `upload_pdf` stores the
chunk/embedding pair when chunking produced chunks (main.py lines
156-164), `ask_question` builds the entry lazily (lines 196-207), and
`delete_document` drops the entry (lines 292-294). -/
def applyOp (embed : Str → Vec) (cache : Cache) : CacheOp → Cache
  | .upload id content =>
    let chunks := chunk_context content
    if chunks.isEmpty then cache
    else fun i =>
      if i = id then some ⟨chunks, generate_embeddings embed chunks⟩
      else cache i
  | .ask id content =>
    match ask_question_cache embed cache id content with
    | .ok (_, c, _) => c
    | .error _ => cache
  | .delete id => fun i => if i = id then none else cache i

/-- The cache states reachable from the initial empty dict by a sequence
of handler calls. -/
def runOps (embed : Str → Vec) (ops : List CacheOp) : Cache :=
  ops.foldl (applyOp embed) emptyCache

/-! ## Retrieval (`retrieve_relevant_chunks`, utils.py lines 162-184)

Cosine similarity (`util.pytorch_cos_sim`) over the external embedding
space is abstracted as `sim : Vec → Vec → ℚ`.  `torch.topk(cos_scores,
k)` (with its default `sorted=True`) is modelled by `topkIndices`: the
indices of the `k` largest scores, in descending score order, ties
resolved toward the lower index (stable selection). -/

/-- The ranking order used by the top-k selection on the score list `s`:
`i` precedes `j` when `i`'s score is larger, or the scores are equal and
`i` comes first. -/
def topkRel (s : List ℚ) (i j : Nat) : Prop :=
  s.getD j 0 < s.getD i 0 ∨ (s.getD i 0 = s.getD j 0 ∧ i ≤ j)

instance topkRelDecidable (s : List ℚ) : DecidableRel (topkRel s) :=
  fun _ _ => by unfold topkRel; infer_instance

instance topkRelTotal (s : List ℚ) : IsTotal Nat (topkRel s) := by
  constructor
  intro a b
  unfold topkRel
  rcases lt_trichotomy (s.getD a 0) (s.getD b 0) with h | h | h
  · right; left; exact h
  · rcases Nat.le_total a b with hle | hle
    · left; right; exact ⟨h, hle⟩
    · right; right; exact ⟨h.symm, hle⟩
  · left; left; exact h

instance topkRelTrans (s : List ℚ) : IsTrans Nat (topkRel s) := by
  constructor
  intro a b c hab hbc
  unfold topkRel at *
  rcases hab with hab | ⟨hab1, hab2⟩ <;> rcases hbc with hbc | ⟨hbc1, hbc2⟩
  · left; linarith
  · left; linarith
  · left; linarith
  · right; exact ⟨hab1.trans hbc1, le_trans hab2 hbc2⟩

/-- Model of `torch.topk(s, k).indices`. -/
def topkIndices (s : List ℚ) (k : Nat) : List Nat :=
  (List.insertionSort (topkRel s) (List.range s.length)).take k

/-- `retrieve_relevant_chunks(question, chunks, embeddings, top_k=3)`
from utils.py lines 162-184. -/
def retrieve_relevant_chunks (embed : Str → Vec) (sim : Vec → Vec → ℚ)
    (question : Str) (chunks : List Str) (embeddings : List Vec)
    (top_k : Nat := 3) : List Str :=
  let question_embedding := embed question
  let cos_scores := embeddings.map (sim question_embedding)
  let effective_k := min top_k chunks.length
  if effective_k = 0 then []
  else (topkIndices cos_scores effective_k).map (fun idx => chunks.getD idx [])

/-! ## Concrete instantiations used by the witness theorems -/

def wEmbed : Str → Vec := fun _ => [1]

def wSim : Vec → Vec → ℚ := fun v w => (List.zipWith (fun a b => a * b) v w).sum

def wEntry : CacheEntry := ⟨[str "a"], [[1]]⟩

def wCache1 : Cache := fun i => if i = 1 then some wEntry else none

def wChunks : List Str := [str "a", str "b"]

def wEmbs : List Vec := [[1], [2]]

/-! ## Word-count lemmas -/

/-- Splitting on whitespace distributes over a space separator: the words
of `a ++ " " ++ r` are the words of `a` followed by the words of `r`. -/
theorem pySplitWsAux_append_space (r : Str) :
    ∀ (a : Str) (acc : Str),
      pySplitWsAux (a ++ ' ' :: r) acc = pySplitWsAux a acc ++ pySplitWs r := by
  intro a
  induction a with
  | nil =>
    intro acc
    cases acc with
    | nil => simp [pySplitWsAux, pyIsSpace, pySplitWs]
    | cons x xs => simp [pySplitWsAux, pyIsSpace, pySplitWs]
  | cons c cs ih =>
    intro acc
    by_cases h : pyIsSpace c
    · cases acc with
      | nil => simp [pySplitWsAux, h, ih]
      | cons x xs => simp [pySplitWsAux, h, ih]
    · simp [pySplitWsAux, h, ih]

theorem wordCount_append_space (a r : Str) :
    wordCount (a ++ ' ' :: r) = wordCount a + wordCount r := by
  unfold wordCount pySplitWs
  rw [show a ++ ' ' :: r = a ++ ' ' :: r from rfl, pySplitWsAux_append_space]
  simp [pySplitWs]

/-- The word count of a space-join is the sum of the word counts. -/
theorem wordCount_joinSpace :
    ∀ l : List Str, wordCount (joinSpace l) = (l.map wordCount).sum := by
  intro l
  induction l with
  | nil => simp [joinSpace, wordCount, pySplitWs, pySplitWsAux]
  | cons s rest ih =>
    cases rest with
    | nil => simp [joinSpace]
    | cons t ts =>
      show wordCount (s ++ ' ' :: joinSpace (t :: ts)) = _
      rw [wordCount_append_space, ih]
      simp

/-! ## Chunking lemmas -/

/-- Soundness of the accumulation loop: provided the running length is the
word-count sum of the accumulated sentences and any multi-sentence
accumulation is within the limit, every emitted chunk either is within the
limit or is literally one of the available sentences. -/
theorem chunkAuxGo_sound (maxW : Nat) :
    ∀ (sents cur : List Str) (curLen : Nat),
      curLen = (cur.map wordCount).sum →
      (2 ≤ cur.length → curLen ≤ maxW) →
      ∀ c ∈ chunkAuxGo maxW sents cur curLen,
        wordCount c ≤ maxW ∨ c ∈ cur ++ sents := by
  intro sents
  induction sents with
  | nil =>
    intro cur curLen hlen hbound c hc
    rcases cur with _ | ⟨s, _ | ⟨t, rest⟩⟩
    · simp [chunkAuxGo] at hc
    · simp [chunkAuxGo] at hc
      subst hc
      right
      simp [joinSpace]
    · simp [chunkAuxGo] at hc
      subst hc
      left
      rw [wordCount_joinSpace, ← hlen]
      exact hbound (by simp [Nat.le_add_left])
  | cons s rest ih =>
    intro cur curLen hlen hbound c hc
    simp only [chunkAuxGo] at hc
    by_cases hover : curLen + wordCount s > maxW
    · rw [if_pos hover] at hc
      have hrec : ∀ c ∈ chunkAuxGo maxW rest [s] (wordCount s),
          wordCount c ≤ maxW ∨ c ∈ [s] ++ rest := by
        intro c hc
        exact ih [s] (wordCount s) (by simp) (by intro h; simp at h) c hc
      rcases cur with _ | ⟨x, xs⟩
      · simp only [List.isEmpty_nil, if_pos] at hc
        rcases hrec c hc with h | h
        · exact Or.inl h
        · exact Or.inr (by simpa using h)
      · simp only [List.isEmpty_cons, Bool.false_eq_true, if_false,
          List.mem_cons] at hc
        rcases hc with hc | hc
        · subst hc
          rcases xs with _ | ⟨y, ys⟩
          · exact Or.inr (by simp [joinSpace])
          · left
            rw [wordCount_joinSpace, ← hlen]
            exact hbound (by simp [Nat.le_add_left])
        · rcases hrec c hc with h | h
          · exact Or.inl h
          · right
            rcases (by simpa using h : c = s ∨ c ∈ rest) with h | h
            · simp [h]
            · simp [h]
    · rw [if_neg hover] at hc
      have := ih (cur ++ [s]) (curLen + wordCount s)
        (by rw [hlen]; simp)
        (fun _ => Nat.le_of_not_lt hover) c hc
      rcases this with h | h
      · exact Or.inl h
      · right
        simpa using h

/-- The chunks produced by the accumulation loop are exactly the
space-joins of a partition of the pending sentences followed by the
remaining sentence list: no sentence is dropped, duplicated, reordered or
split across chunks. -/
theorem chunkAuxGo_partition (maxW : Nat) :
    ∀ (sents cur : List Str) (curLen : Nat),
      ∃ parts : List (List Str),
        parts.flatten = cur ++ sents ∧
        chunkAuxGo maxW sents cur curLen = parts.map joinSpace := by
  intro sents
  induction sents with
  | nil =>
    intro cur curLen
    rcases cur with _ | ⟨x, xs⟩
    · exact ⟨[], by simp, by simp [chunkAuxGo]⟩
    · exact ⟨[x :: xs], by simp, by simp [chunkAuxGo]⟩
  | cons s rest ih =>
    intro cur curLen
    simp only [chunkAuxGo]
    by_cases hover : curLen + wordCount s > maxW
    · rw [if_pos hover]
      obtain ⟨parts, h1, h2⟩ := ih [s] (wordCount s)
      rcases cur with _ | ⟨x, xs⟩
      · exact ⟨parts, by simpa using h1, by simpa using h2⟩
      · refine ⟨(x :: xs) :: parts, ?_, ?_⟩
        · simp [h1]
        · simpa using congrArg (joinSpace (x :: xs) :: ·) h2
    · rw [if_neg hover]
      obtain ⟨parts, h1, h2⟩ := ih (cur ++ [s]) (curLen + wordCount s)
      exact ⟨parts, by simpa using h1, h2⟩

/-- The sentence splitter never returns an empty list (mirroring
`re.split`, which returns at least one segment for every input). -/
theorem splitSentGo_ne_nil :
    ∀ (fuel : Nat) (l acc : Str), splitSentGo fuel l acc ≠ [] := by
  intro fuel
  induction fuel with
  | zero =>
    intro l acc
    cases l <;> simp [splitSentGo]
  | succ n ih =>
    intro l acc
    cases l with
    | nil => simp [splitSentGo]
    | cons c cs =>
      simp only [splitSentGo]
      split
      · simp
      · exact ih cs (c :: acc)

theorem splitSentences_ne_nil (l : Str) : splitSentences l ≠ [] :=
  splitSentGo_ne_nil l.length l []

/-- The accumulation loop returns at least one chunk whenever it has a
pending chunk or at least one sentence left. -/
theorem chunkAuxGo_ne_nil (maxW : Nat) :
    ∀ (sents cur : List Str) (curLen : Nat), cur ≠ [] ∨ sents ≠ [] →
      chunkAuxGo maxW sents cur curLen ≠ [] := by
  intro sents
  induction sents with
  | nil =>
    intro cur curLen h
    rcases cur with _ | ⟨x, xs⟩
    · rcases h with h | h <;> simp at h
    · simp [chunkAuxGo]
  | cons s rest ih =>
    intro cur curLen _
    simp only [chunkAuxGo]
    split
    · rcases cur with _ | ⟨x, xs⟩
      · simpa using ih [s] (wordCount s) (Or.inl (by simp))
      · simp
    · exact ih (cur ++ [s]) (curLen + wordCount s) (Or.inl (by simp))

/-! ## Claim theorems: chunking (C1, C5, C10) -/

/-- **C1**: every chunk produced by `chunk_context` has a word count (the
words of its sentences joined with single spaces) of at most
`max_chunk_size`, unless that chunk is a single sentence whose own word
count exceeds the limit; and the chunks are the space-joins of a partition
of the sentence sequence, so no sentence is ever split across chunks. -/
theorem chunk_context_bound_and_no_split (ctx : Str) (maxW : Nat) :
    (∀ c ∈ chunk_context ctx maxW,
        wordCount c ≤ maxW ∨ (c ∈ splitSentences ctx ∧ maxW < wordCount c)) ∧
    ∃ parts : List (List Str),
      parts.flatten = splitSentences ctx ∧
      chunk_context ctx maxW = parts.map joinSpace := by
  constructor
  · intro c hc
    have h := chunkAuxGo_sound maxW (splitSentences ctx) [] 0 (by simp)
      (by intro h; exact Nat.zero_le _) c hc
    by_cases hle : wordCount c ≤ maxW
    · exact Or.inl hle
    · rcases h with h | h
      · exact Or.inl h
      · exact Or.inr ⟨by simpa using h, Nat.lt_of_not_le hle⟩
  · obtain ⟨parts, h1, h2⟩ := chunkAuxGo_partition maxW (splitSentences ctx) [] 0
    exact ⟨parts, by simpa using h1, h2⟩

/-- Witness for C1 at a concrete input: the single chunk `"a. b"` of
`chunk_context "a. b" 512` satisfies the bound disjunction. -/
theorem chunk_context_bound_and_no_split_witness :
    wordCount (str "a. b") ≤ 512 ∨
      (str "a. b" ∈ splitSentences (str "a. b") ∧ 512 < wordCount (str "a. b")) :=
  (chunk_context_bound_and_no_split (str "a. b") 512).1 (str "a. b") (by decide)

/-- **C5** counterexample: `chunk_context` on the empty string does not
return an empty sequence of chunks. -/
theorem chunk_context_empty_not_nil : chunk_context (str "") ≠ [] := by decide

/-- **C5** amended: `chunk_context` on the empty string returns the
one-element list whose only chunk is the empty string. -/
theorem chunk_context_empty_singleton : chunk_context (str "") = [[]] := by decide

/-- **C10**: for every input string (including the empty string) and every
limit, `chunk_context` returns at least one chunk; consequently the branch
of `ask_question` that rejects a question because chunking produced no
chunks is unreachable when the stored document content is a string:
`ask_question_cache` always returns `.ok`. -/
theorem chunk_context_never_empty :
    (∀ (ctx : Str) (maxW : Nat), chunk_context ctx maxW ≠ []) ∧
    (∀ (embed : Str → Vec) (cache : Cache) (docId : Nat) (content : Str),
      ∃ r, ask_question_cache embed cache docId content = .ok r) := by
  have hchunks : ∀ (ctx : Str) (maxW : Nat), chunk_context ctx maxW ≠ [] :=
    fun ctx maxW => chunkAuxGo_ne_nil maxW (splitSentences ctx) [] 0
      (Or.inr (splitSentences_ne_nil ctx))
  refine ⟨hchunks, ?_⟩
  intro embed cache docId content
  have hne : (chunk_context content).isEmpty = false := by
    simp only [List.isEmpty_eq_false]
    exact hchunks content 512
  cases h : cache docId with
  | some entry => exact ⟨_, by unfold ask_question_cache; rw [h]⟩
  | none =>
    refine ⟨((chunk_context content, generate_embeddings embed (chunk_context content)),
      fun i => if i = docId then
        some ⟨chunk_context content, generate_embeddings embed (chunk_context content)⟩
      else cache i, 1), ?_⟩
    unfold ask_question_cache
    rw [h]
    simp only [hne, Bool.false_eq_true, if_false]

/-- Witness for C10 at a concrete input. -/
theorem chunk_context_never_empty_witness :
    chunk_context (str "x") 512 ≠ [] ∧
    ∃ r, ask_question_cache wEmbed emptyCache 1 (str "x") = .ok r :=
  ⟨chunk_context_never_empty.1 (str "x") 512,
   chunk_context_never_empty.2 wEmbed emptyCache 1 (str "x")⟩

/-! ## Claim theorems: post-processing exception behaviour (C6) -/

/-- An exception at step `k` of the `try` block leaves the local variable
bound to the composition of the first `k` steps, and that value is what
the handler returns. -/
theorem ppTryGo_fail_steps :
    ∀ (fs : List (Str → Str)) (k : Nat) (a : Str), k < fs.length →
      ppTryGo fs (some k) a = (fs.take k).foldl (fun x f => f x) a := by
  intro fs
  induction fs with
  | nil => intro k a h; simp at h
  | cons f fs ih =>
    intro k a h
    cases k with
    | zero => simp [ppTryGo]
    | succ k =>
      show ppTryGo fs (some k) (f a) = _
      rw [ih k (f a) (by simpa using h)]
      simp

/-- **C6** counterexample: an exception raised at pipeline step 2 (a
valid step index), after the ID-number strip has already rewritten the
string, makes `post_process_answer` return a partially processed string —
not the pre-processed raw input unchanged. -/
theorem post_process_answer_try_counterexample :
    (2 : Nat) < ppSteps.length ∧
    post_process_answer_try (some 2) (str "ID: 12 x") ≠ str "ID: 12 x" := by
  constructor
  · decide
  · decide

/-- **C6** amended: if an exception is raised at step `k` of the
post-processing pipeline, `post_process_answer` catches it (it never
propagates) and returns the intermediate value produced by the `k` steps
already completed — which equals the raw input only when the exception
occurs before any transformation; with no exception the full pipeline
result is returned. -/
theorem post_process_answer_try_behavior (k : Nat) (a : Str)
    (h : k < ppSteps.length) :
    post_process_answer_try (some k) a =
      (ppSteps.take k).foldl (fun x f => f x) a ∧
    post_process_answer_try none a = post_process_answer a :=
  ⟨ppTryGo_fail_steps ppSteps k a h, rfl⟩

/-- Witness for the amended C6 at a concrete input. -/
theorem post_process_answer_try_behavior_witness :
    post_process_answer_try (some 2) (str "x") =
      (ppSteps.take 2).foldl (fun x f => f x) (str "x") ∧
    post_process_answer_try none (str "x") = post_process_answer (str "x") :=
  post_process_answer_try_behavior 2 (str "x") (by decide)

/-! ## Claim theorems: generation (C3, C8) -/

/-- **C3**: for every generation model, every retry budget and every
question, calling `generate_fluent_answer` with an empty list of relevant
chunks returns the fixed apology string with zero invocations of the
generation model (the result does not depend on `model` at all). -/
theorem generate_fluent_answer_empty_chunks
    (model : Str → Option Str) (fuel : Nat) (question : Str) :
    generate_fluent_answer model fuel question [] = (some noChunksApology, 0) := by
  cases fuel with
  | zero => simp [generate_fluent_answer]
  | succ n => simp [generate_fluent_answer]

/-- **C8**: when every model output post-processes to fewer than 5 words,
the "answer too short" retry of `generate_fluent_answer` re-invokes
generation with exactly the same inputs forever: for every retry budget
`fuel` the recursion exhausts the budget without producing an answer,
having invoked the model exactly `fuel` times — there is no retry ceiling
or fallback in the source. -/
theorem generate_fluent_answer_retry_unbounded
    (model : Str → Option Str) (question : Str) (chunks : List Str)
    (hne : chunks ≠ [])
    (hshort : ∀ t, ∃ raw, model t = some raw ∧
      wordCount (post_process_answer raw) < 5) :
    ∀ fuel, generate_fluent_answer model fuel question chunks = (none, fuel) := by
  have hempty : chunks.isEmpty = false := by
    simp only [List.isEmpty_eq_false]
    exact hne
  intro fuel
  induction fuel with
  | zero => simp [generate_fluent_answer, hempty]
  | succ n ih =>
    obtain ⟨raw, hmodel, hwc⟩ := hshort (promptOf question (joinSpace chunks))
    simp [generate_fluent_answer, hempty, hmodel, hwc, ih]

/-- Witness for C8: the model that always decodes to the empty string
post-processes to the one-word answer `"."`, so every budget is
exhausted. -/
theorem generate_fluent_answer_retry_unbounded_witness :
    generate_fluent_answer (fun _ => some []) 7 (str "q") [str "c"] = (none, 7) :=
  generate_fluent_answer_retry_unbounded (fun _ => some []) (str "q") [str "c"]
    (by decide) (fun _ => ⟨[], rfl, by decide⟩) 7

/-! ## Claim theorems: embedding cache (C4, C7) -/

/-- **C4**: after a first question call has produced (and, on a miss,
stored) the (chunks, embeddings) pair for a document id, a second question
call for the same id — with arbitrary, possibly changed, document
content — returns exactly the stored pair, leaves the cache unchanged and
performs zero chunk-embedding invocations; across the two consecutive
calls the embedder runs at most once. -/
theorem ask_question_cache_reuse (embed : Str → Vec) (c0 : Cache)
    (docId : Nat) (ct1 ct2 : Str) (pair1 : List Str × List Vec) (c1 : Cache)
    (n1 : Nat)
    (h : ask_question_cache embed c0 docId ct1 = .ok (pair1, c1, n1)) :
    ask_question_cache embed c1 docId ct2 = .ok (pair1, c1, 0) ∧
    c1 docId = some ⟨pair1.1, pair1.2⟩ ∧
    n1 + 0 ≤ 1 := by
  cases hc : c0 docId with
  | some entry =>
    unfold ask_question_cache at h
    rw [hc] at h
    simp only [Except.ok.injEq, Prod.mk.injEq] at h
    obtain ⟨hp, hcache, hn⟩ := h
    subst hp; subst hcache; subst hn
    refine ⟨?_, ?_, ?_⟩
    · unfold ask_question_cache
      rw [hc]
    · rw [hc]
    · exact Nat.le_of_lt Nat.zero_lt_one
  | none =>
    have hne : (chunk_context ct1).isEmpty = false := by
      simp only [List.isEmpty_eq_false]
      exact chunkAuxGo_ne_nil 512 (splitSentences ct1) [] 0
        (Or.inr (splitSentences_ne_nil ct1))
    unfold ask_question_cache at h
    rw [hc] at h
    simp only [hne, Bool.false_eq_true, if_false, Except.ok.injEq,
      Prod.mk.injEq] at h
    obtain ⟨hp, hcache, hn⟩ := h
    have hc1 : c1 docId =
        some ⟨chunk_context ct1, generate_embeddings embed (chunk_context ct1)⟩ := by
      rw [← hcache]
      simp
    refine ⟨?_, ?_, ?_⟩
    · unfold ask_question_cache
      rw [hc1, ← hp]
    · rw [hc1, ← hp]
    · omega

/-- Witness for C4: a first call on the empty cache builds the entry with
one embedder invocation; the second call reuses it with zero. -/
theorem ask_question_cache_reuse_witness :
    ask_question_cache wEmbed wCache1 1 (str "b") =
      .ok (([str "a"], [[1]]), wCache1, 0) ∧
    wCache1 1 = some ⟨[str "a"], [[1]]⟩ ∧
    1 + 0 ≤ 1 :=
  ask_question_cache_reuse wEmbed emptyCache 1 (str "a") (str "b")
    ([str "a"], [[1]]) wCache1 1 rfl

/-- Preservation of the chunk/embedding parallelism by one handler call. -/
theorem applyOp_preserves_inv (embed : Str → Vec) (cache : Cache)
    (hinv : ∀ id entry, cache id = some entry →
      entry.embeddings = entry.chunks.map embed) (op : CacheOp) :
    ∀ id entry, applyOp embed cache op id = some entry →
      entry.embeddings = entry.chunks.map embed := by
  intro id entry h
  cases op with
  | upload i content =>
    simp only [applyOp] at h
    by_cases hch : (chunk_context content).isEmpty = true
    · rw [if_pos hch] at h
      exact hinv id entry h
    · rw [if_neg hch] at h
      by_cases hid : id = i
      · rw [if_pos hid] at h
        injection h with h
        subst h
        rfl
      · rw [if_neg hid] at h
        exact hinv id entry h
  | ask i content =>
    simp only [applyOp] at h
    cases hask : ask_question_cache embed cache i content with
    | error e =>
      rw [hask] at h
      exact hinv id entry h
    | ok r =>
      rw [hask] at h
      obtain ⟨p, c, n⟩ := r
      change c id = some entry at h
      revert hask
      unfold ask_question_cache
      cases hc : cache i with
      | some e =>
        intro hask
        simp only [Except.ok.injEq, Prod.mk.injEq] at hask
        obtain ⟨-, hcache, -⟩ := hask
        subst hcache
        exact hinv id entry h
      | none =>
        have hne : (chunk_context content).isEmpty = false := by
          simp only [List.isEmpty_eq_false]
          exact chunkAuxGo_ne_nil 512 (splitSentences content) [] 0
            (Or.inr (splitSentences_ne_nil content))
        intro hask
        simp only [hne, Bool.false_eq_true, if_false, Except.ok.injEq,
          Prod.mk.injEq] at hask
        obtain ⟨-, hcache, -⟩ := hask
        subst hcache
        have h2 : (if id = i then
            some (⟨chunk_context content,
              generate_embeddings embed (chunk_context content)⟩ : CacheEntry)
          else cache id) = some entry := h
        by_cases hid : id = i
        · rw [if_pos hid] at h2
          injection h2 with h2
          subst h2
          rfl
        · rw [if_neg hid] at h2
          exact hinv id entry h2
  | delete i =>
    simp only [applyOp] at h
    by_cases hid : id = i
    · rw [if_pos hid] at h
      exact absurd h (by simp)
    · rw [if_neg hid] at h
      exact hinv id entry h

/-- The parallelism invariant holds along any fold of handler calls. -/
theorem foldl_applyOp_inv (embed : Str → Vec) :
    ∀ (ops : List CacheOp) (cache : Cache),
      (∀ id entry, cache id = some entry →
        entry.embeddings = entry.chunks.map embed) →
      ∀ id entry, (ops.foldl (applyOp embed) cache) id = some entry →
        entry.embeddings = entry.chunks.map embed := by
  intro ops
  induction ops with
  | nil => intro cache hinv; exact hinv
  | cons op ops ih =>
    intro cache hinv
    exact ih (applyOp embed cache op) (applyOp_preserves_inv embed cache hinv op)

/-- **C7**: in every cache state reachable from the empty cache by handler
calls (eager build at upload, lazy build at question time, deletes), every
stored entry's embedding list is the embedder mapped over its chunk list:
the two lists have equal length, are in the same order, and index `i` of
the embedding list is the embedding of chunk `i`. -/
theorem cache_parallel_invariant (embed : Str → Vec) (ops : List CacheOp)
    (id : Nat) (entry : CacheEntry) (h : runOps embed ops id = some entry) :
    entry.embeddings = entry.chunks.map embed ∧
    entry.chunks.length = entry.embeddings.length ∧
    ∀ i : Nat, entry.embeddings[i]? = (entry.chunks[i]?).map embed := by
  have hmap := foldl_applyOp_inv embed ops emptyCache
    (by intro id entry h; exact absurd h (by simp [emptyCache])) id entry h
  refine ⟨hmap, ?_, ?_⟩
  · rw [hmap]
    simp
  · intro i
    rw [hmap]
    simp

/-- Witness for C7: the entry stored by one upload. -/
theorem cache_parallel_invariant_witness :
    wEntry.embeddings = wEntry.chunks.map wEmbed ∧
    wEntry.chunks.length = wEntry.embeddings.length ∧
    ∀ i : Nat, wEntry.embeddings[i]? = (wEntry.chunks[i]?).map wEmbed :=
  cache_parallel_invariant wEmbed [CacheOp.upload 1 (str "a")] 1 wEntry rfl

/-! ## Claim theorems: retrieval (C2) -/

/-- **C2**: `retrieve_relevant_chunks` returns exactly
`min top_k (number of chunks)` chunk texts — an empty sequence, with no
failure, when the chunk list is empty — and the returned texts are the
chunks at a duplicate-free, in-bounds index sequence ordered by
descending cosine-similarity score with ties broken by the original chunk
order; every selected index ranks at least as high as every unselected
one. -/
theorem retrieve_relevant_chunks_topk (embed : Str → Vec) (sim : Vec → Vec → ℚ)
    (question : Str) (chunks : List Str) (embeddings : List Vec) (top_k : Nat)
    (h : embeddings.length = chunks.length) :
    (retrieve_relevant_chunks embed sim question chunks embeddings top_k).length
        = min top_k chunks.length ∧
    (chunks = [] →
      retrieve_relevant_chunks embed sim question chunks embeddings top_k = []) ∧
    ∃ idxs : List Nat,
      retrieve_relevant_chunks embed sim question chunks embeddings top_k
          = idxs.map (fun i => chunks.getD i []) ∧
      idxs.Nodup ∧
      (∀ i ∈ idxs, i < chunks.length) ∧
      idxs.Pairwise (topkRel (embeddings.map (sim (embed question)))) ∧
      (∀ i ∈ idxs, ∀ j < chunks.length, j ∉ idxs →
        topkRel (embeddings.map (sim (embed question))) i j) := by
  have hr : retrieve_relevant_chunks embed sim question chunks embeddings top_k
      = if min top_k chunks.length = 0 then []
        else (topkIndices (embeddings.map (sim (embed question)))
          (min top_k chunks.length)).map (fun idx => chunks.getD idx []) := rfl
  by_cases hk : min top_k chunks.length = 0
  · rw [hr, if_pos hk]
    exact ⟨by simp [hk], fun _ => rfl, [], by simp, by simp, by simp, by simp,
      by simp⟩
  · rw [hr, if_neg hk]
    set s : List ℚ := embeddings.map (sim (embed question)) with hs
    have hslen : s.length = chunks.length := by rw [hs]; simp [h]
    set kk := min top_k chunks.length with hkk
    have hkle : kk ≤ chunks.length := Nat.min_le_right _ _
    set full := List.insertionSort (topkRel s) (List.range s.length) with hfull
    have hperm : List.Perm full (List.range s.length) :=
      List.perm_insertionSort _ _
    have hfulllen : full.length = s.length := hperm.length_eq.trans (by simp)
    have hfullnodup : full.Nodup := hperm.nodup_iff.mpr (List.nodup_range _)
    have hsorted : full.Pairwise (topkRel s) := List.sorted_insertionSort _ _
    have htake : topkIndices s kk = full.take kk := rfl
    refine ⟨?_, ?_, full.take kk, by rw [htake], ?_, ?_, ?_, ?_⟩
    · rw [List.length_map, htake, List.length_take, hfulllen, hslen]
      exact Nat.min_eq_left hkle
    · intro hc
      rw [hc] at hkle
      simp at hkle
      exact absurd hkle hk
    · exact List.Nodup.sublist (List.take_sublist kk full) hfullnodup
    · intro i hi
      have h1 : i ∈ full := List.mem_of_mem_take hi
      have h2 : i < s.length := List.mem_range.mp (hperm.mem_iff.mp h1)
      rw [← hslen]
      exact h2
    · exact List.Pairwise.sublist (List.take_sublist kk full) hsorted
    · intro i hi j hj hnot
      have hjfull : j ∈ full :=
        hperm.mem_iff.mpr (List.mem_range.mpr (by rw [hslen]; exact hj))
      have hjsplit : j ∈ full.take kk ++ full.drop kk := by
        rw [List.take_append_drop]
        exact hjfull
      have hjdrop : j ∈ full.drop kk := by
        rcases List.mem_append.mp hjsplit with h2 | h2
        · exact absurd h2 hnot
        · exact h2
      have hpw : (full.take kk ++ full.drop kk).Pairwise (topkRel s) := by
        rw [List.take_append_drop]
        exact hsorted
      exact (List.pairwise_append.mp hpw).2.2 i hi j hjdrop

/-- Witness for C2: two chunks, `top_k = 3`, distinct scores. -/
theorem retrieve_relevant_chunks_topk_witness :
    (retrieve_relevant_chunks wEmbed wSim (str "q") wChunks wEmbs 3).length
        = min 3 wChunks.length ∧
    (wChunks = [] →
      retrieve_relevant_chunks wEmbed wSim (str "q") wChunks wEmbs 3 = []) ∧
    ∃ idxs : List Nat,
      retrieve_relevant_chunks wEmbed wSim (str "q") wChunks wEmbs 3
          = idxs.map (fun i => wChunks.getD i []) ∧
      idxs.Nodup ∧
      (∀ i ∈ idxs, i < wChunks.length) ∧
      idxs.Pairwise (topkRel (wEmbs.map (wSim (wEmbed (str "q"))))) ∧
      (∀ i ∈ idxs, ∀ j < wChunks.length, j ∉ idxs →
        topkRel (wEmbs.map (wSim (wEmbed (str "q")))) i j) :=
  retrieve_relevant_chunks_topk wEmbed wSim (str "q") wChunks wEmbs 3 rfl

/-! ## Claim theorems: text normalization (C9) -/

theorem nfkdNormalize_append (a b : Str) :
    nfkdNormalize (a ++ b) = nfkdNormalize a ++ nfkdNormalize b := by
  unfold nfkdNormalize
  rw [List.map_append, List.flatten_append]

/-- The decomposition table is fully decomposed: decomposing a decomposed
character again changes nothing (NFKD performs no recombination). -/
theorem nfkdChar_idem (c : Char) : nfkdNormalize (nfkdChar c) = nfkdChar c := by
  unfold nfkdChar
  by_cases h1 : c == 'ﬁ'
  · rw [if_pos h1]
    decide
  · rw [if_neg h1]
    by_cases h2 : c == 'é'
    · rw [if_pos h2]
      decide
    · rw [if_neg h2]
      show nfkdNormalize [c] = [c]
      unfold nfkdNormalize
      simp [nfkdChar, h1, h2]

theorem nfkdNormalize_idem (s_in : Str) :
    nfkdNormalize (nfkdNormalize s_in) = nfkdNormalize s_in := by
  induction s_in with
  | nil => rfl
  | cons c cs ih =>
    have hstep : nfkdNormalize (c :: cs) = nfkdChar c ++ nfkdNormalize cs := by
      unfold nfkdNormalize
      simp
    rw [hstep, nfkdNormalize_append, nfkdChar_idem, ih]

/-- **C9** counterexample: on the ligature `ﬁ` (U+FB01) the first
normalization step of `clean_text` decomposes the character (compatibility
decomposition), whereas canonical decomposition-then-recombination (NFC)
leaves the ligature intact: the normalizer as implemented and the
normalizer the claim describes disagree. -/
theorem clean_text_not_nfc :
    clean_text (str "ﬁ") = str "fi" ∧
    clean_text_nfc_spec (str "ﬁ") = str "ﬁ" ∧
    clean_text (str "ﬁ") ≠ clean_text_nfc_spec (str "ﬁ") :=
  ⟨by decide, by decide, by decide⟩

/-- **C9** amended: the first step of the text normalizer applies Unicode
*compatibility decomposition* (NFKD — decomposition with no
recombination, idempotent on its output) to the input text before
stripping control characters and collapsing whitespace. -/
theorem clean_text_first_step_nfkd :
    (∀ s_in : Str, clean_text s_in = cleanTextAfterNormalize (nfkdNormalize s_in)) ∧
    (∀ s_in : Str, nfkdNormalize (nfkdNormalize s_in) = nfkdNormalize s_in) :=
  ⟨fun _ => rfl, nfkdNormalize_idem⟩

